import Mathlib

/-!
Verification of the Florence-2 FiftyOne adapter (`florence2.py`).

The development shallowly embeds the pure logic of the adapter:
the operation table `FLORENCE2_OPERATIONS`, constructor validation in
`Florence2.__init__`, caption task selection in `_predict_caption`,
bounding-box normalization in `_convert_bbox`, detection extraction in
`_extract_detections`, and polyline (staircase) reconstruction in
`_extract_polylines`.  Pixel coordinates are embedded as rationals;
Python exceptions (tuple-unpack errors, list index errors, dict key
errors) are embedded as `Except` error values.
-/

namespace Florence2

/-! ### String helpers (substring containment, quoting) -/

/-- whether `pat` occurs at the head of `l` (character-list version). -/
def leadEq : List Char → List Char → Bool
  | [], _ => true
  | _ :: _, [] => false
  | a :: as, b :: bs => a == b && leadEq as bs

/-- whether `pat` occurs anywhere inside `l`. -/
def subChars (pat : List Char) : List Char → Bool
  | [] => leadEq pat []
  | c :: rest => leadEq pat (c :: rest) || subChars pat rest

/-- whether string `sub` occurs as a contiguous substring of `s`. -/
def strHasSub (s sub : String) : Bool := subChars sub.data s.data

/-- the single-quote character, as a string. -/
def sq : String := "\x27"

/-! ### The operation table (`FLORENCE2_OPERATIONS`) -/

/-- the keys of the `FLORENCE2_OPERATIONS` dict, in insertion order. -/
def florence2OperationKeys : List String :=
  ["caption", "ocr", "detection", "phrase_grounding", "segmentation"]

/-- lookup in the caption `task_mapping` dict; the dict has keys
`"detailed"`, `"more_detailed"`, `"basic"` and `None`, and lookup of any
other key misses (`none`). -/
def caption_task_mapping (detail_level : Option String) : Option String :=
  if detail_level = some "detailed" then some "<DETAILED_CAPTION>"
  else if detail_level = some "more_detailed" then some "<MORE_DETAILED_CAPTION>"
  else if detail_level = some "basic" then some "<CAPTION>"
  else if detail_level = none then some "<CAPTION>"
  else none

/-- task selection of `_predict_caption`:
`detail_level = self.params.get("detail_level", "basic")` followed by
`task = task_mapping.get(detail_level, task_mapping[None])`. -/
def predictCaptionTask (detail_level : Option String) : String :=
  let dl := detail_level.getD "basic"
  (caption_task_mapping (some dl)).getD "<CAPTION>"

/-! ### Constructor (`Florence2.__init__`) -/

/-- the keyword arguments accepted by the adapter; a `none` field embeds a
keyword that is absent from `kwargs`. -/
structure Kwargs where
  detail_level : Option String := none
  store_region_info : Option Bool := none
  detection_type : Option String := none
  text_prompt : Option String := none
  caption : Option String := none
  caption_field : Option String := none
  expression : Option String := none
  expression_field : Option String := none
deriving Repr, DecidableEq

/-- side effects performed by the constructor after validation passes. -/
inductive InitEvent
  | modelLoad
  | processorLoad
deriving Repr, DecidableEq

/-- the validated configuration (`self.operation` / `self.params`). -/
structure Florence2Config where
  operation : String
  params : Kwargs
deriving Repr, DecidableEq

/-- Python `repr` of a list of strings, e.g. `['caption', 'ocr']`. -/
def pyListRepr (keys : List String) : String :=
  "[" ++ String.intercalate ", " (keys.map (fun k => sq ++ k ++ sq)) ++ "]"

/-- the message of the invalid-operation `ValueError`. -/
def invalidOperationMessage (operation : String) : String :=
  "Invalid operation: " ++ operation ++ ". Must be one of " ++
    pyListRepr florence2OperationKeys

/-- the message of the missing caption-source `ValueError`. -/
def missingCaptionMessage : String :=
  "Either " ++ sq ++ "caption_field" ++ sq ++ " or " ++ sq ++ "caption" ++ sq ++
    " must be provided for phrase_grounding operation"

/-- the message of the missing expression-source `ValueError`. -/
def missingExpressionMessage : String :=
  "Either " ++ sq ++ "expression_field" ++ sq ++ " or " ++ sq ++ "expression" ++ sq ++
    " must be provided for segmentation operation"

/-- `Florence2.__init__`: validates the operation name, then the
operation-specific required parameters, and only then loads the model and
the processor.  The second component records the side effects performed
(model/processor loading); a raised `ValueError` is an `Except.error`
carrying the message, with no side effect performed. -/
def florence2_init (operation : String) (kwargs : Kwargs) :
    Except String Florence2Config × List InitEvent :=
  if operation ∉ florence2OperationKeys then
    (.error (invalidOperationMessage operation), [])
  else if operation = "phrase_grounding" ∧
      kwargs.caption_field = none ∧ kwargs.caption = none then
    (.error missingCaptionMessage, [])
  else if operation = "segmentation" ∧
      kwargs.expression_field = none ∧ kwargs.expression = none then
    (.error missingExpressionMessage, [])
  else
    (.ok ⟨operation, kwargs⟩, [.modelLoad, .processorLoad])

/-! ### Text-input construction for phrase grounding / segmentation -/

/-- the `text_input` built by `_predict_phrase_grounding`:
`caption = self.params["caption"] if "caption" in self.params else
self.params["caption_field"]`, then `f"{task}\n{caption}"`.
A lookup of a key absent from `self.params` is a Python `KeyError`,
embedded as `Except.error`. -/
def predict_phrase_grounding_text (params : Kwargs) : Except String String :=
  match params.caption with
  | some c => .ok ("<CAPTION_TO_PHRASE_GROUNDING>" ++ "\n" ++ c)
  | none =>
    match params.caption_field with
    | some c => .ok ("<CAPTION_TO_PHRASE_GROUNDING>" ++ "\n" ++ c)
    | none => .error "KeyError: caption_field"

/-- the `text_input` built by `_predict_segmentation`:
`f"{task}\nExpression: {expression}"` with the expression drawn from
`self.params["expression"]` when present, else
`self.params["expression_field"]`. -/
def predict_segmentation_text (params : Kwargs) : Except String String :=
  match params.expression with
  | some e => .ok ("<REFERRING_EXPRESSION_SEGMENTATION>" ++ "\nExpression: " ++ e)
  | none =>
    match params.expression_field with
    | some e => .ok ("<REFERRING_EXPRESSION_SEGMENTATION>" ++ "\nExpression: " ++ e)
    | none => .error "KeyError: expression_field"

/-! ### Geometry: bounding-box normalization (`_convert_bbox`) -/

/-- a Python runtime fault raised by the geometry code: a tuple-unpacking
`ValueError` (`x1, y1, ..., y4 = bbox` on a list whose length is not 8) or
an `IndexError` / list-index fault. -/
inductive Fault
  | unpackMismatch
  | indexOutOfRange
deriving Repr, DecidableEq

/-- `_convert_bbox(bbox, width, height)`: a length-4 list is treated as a
rectangle `[x1,y1,x2,y2]`; any other length falls into the `else` branch,
which unpacks exactly 8 coordinates (raising `ValueError` otherwise),
takes the axis-aligned min/max rectangle of the four corner points, and
normalizes it with the same formula. -/
def convert_bbox (bbox : List ℚ) (width height : ℚ) : Except Fault (List ℚ) :=
  match bbox with
  | [x1, y1, x2, y2] =>
    .ok [x1 / width, y1 / height, (x2 - x1) / width, (y2 - y1) / height]
  | [x1, y1, x2, y2, x3, y3, x4, y4] =>
    let x_min := min (min (min x1 x2) x3) x4
    let x_max := max (max (max x1 x2) x3) x4
    let y_min := min (min (min y1 y2) y3) y4
    let y_max := max (max (max y1 y2) y3) y4
    .ok [x_min / width, y_min / height,
         (x_max - x_min) / width, (y_max - y_min) / height]
  | _ => .error .unpackMismatch

/-! ### Geometry: polyline staircase reconstruction (`_extract_polylines`) -/

/-- `[p for i, p in enumerate(contour) if i % 2 == 0]`. -/
def x_points_of (contour : List ℚ) : List ℚ :=
  ((List.enumFrom 0 contour).filter (fun p => p.1 % 2 == 0)).map Prod.snd

/-- `[p for i, p in enumerate(contour) if i % 2 != 0]`. -/
def y_points_of (contour : List ℚ) : List ℚ :=
  ((List.enumFrom 0 contour).filter (fun p => !(p.1 % 2 == 0))).map Prod.snd

/-- the loop `for i in range(1, len(x_points))` of `_extract_polylines`,
run over the remaining index list: at index `i` it appends
`(x[i], curr_y)` then updates `curr_y := y[i]` and appends `(x[i], y[i])`.
An out-of-range list access is a `Fault`.  Returns the points emitted by
the loop together with the final value of `curr_y`. -/
def stairAux (xs ys : List ℚ) : ℚ → List Nat → Except Fault (List (ℚ × ℚ) × ℚ)
  | curr_y, [] => .ok ([], curr_y)
  | curr_y, i :: rest =>
    match xs.get? i, ys.get? i with
    | some xi, some yi =>
      match stairAux xs ys yi rest with
      | .ok (pts, fy) => .ok ((xi, curr_y) :: (xi, yi) :: pts, fy)
      | .error e => .error e
    | _, _ => .error .indexOutOfRange

/-- the per-contour body of `_extract_polylines`: de-interleave the flat
coordinate stream, normalize by the image dimensions, emit the initial
point, run the staircase loop, and append the closing point
`(x_points[0], curr_y)`. -/
def contourStaircase (contour : List ℚ) (width height : ℚ) :
    Except Fault (List (ℚ × ℚ)) :=
  let x_points := (x_points_of contour).map (· / width)
  let y_points := (y_points_of contour).map (· / height)
  match x_points.get? 0, y_points.get? 0 with
  | some x0, some y0 =>
    match stairAux x_points y_points y0 (List.range' 1 (x_points.length - 1)) with
    | .ok (pts, curr_y) => .ok ((x0, y0) :: pts ++ [(x0, curr_y)])
    | .error e => .error e
  | _, _ => .error .indexOutOfRange

/-- interleaving of an x-sequence and a y-sequence into a flat coordinate
stream `[x1, y1, x2, y2, ...]` (used to describe well-formed contours). -/
def interleave : List ℚ → List ℚ → List ℚ
  | x :: xs, y :: ys => x :: y :: interleave xs ys
  | _, _ => []

/-- the spec's staircase step sequence: for each remaining index, emit
`(x[i], y[i-1])` then `(x[i], y[i])` (`prevY` carries `y[i-1]`). -/
def specStaircaseAux (prevY : ℚ) : List ℚ → List ℚ → List (ℚ × ℚ)
  | x :: xs, y :: ys => (x, prevY) :: (x, y) :: specStaircaseAux y xs ys
  | _, _ => []

/-- the point sequence the spec prescribes for a contour with x-sequence
`xs` and y-sequence `ys` (already normalized): the initial point
`(x[0], y[0])`, then for each `i` from 1 the pair `(x[i], y[i-1])`,
`(x[i], y[i])`, then the closing point `(x[0], y[N-1])`. -/
def specStaircase : List ℚ → List ℚ → List (ℚ × ℚ)
  | x0 :: xr, y0 :: yr =>
    (x0, y0) :: specStaircaseAux y0 xr yr ++ [(x0, yr.getLastD y0)]
  | _, _ => []

/-! ### Detections (`_extract_detections`) -/

/-- a FiftyOne `Detection`: a label and a normalized bounding box. -/
structure Detection where
  label : String
  bounding_box : List ℚ
deriving Repr, DecidableEq

/-- `label if label else f"object_{i+1}"`: the empty string and `None`
are falsy in Python, any other string is truthy. -/
def detectionLabel (label : Option String) (i : Nat) : String :=
  match label with
  | none => "object_" ++ toString (i + 1)
  | some s => if s = "" then "object_" ++ toString (i + 1) else s

/-- the loop `for i, (bbox, label) in enumerate(zip(bboxes, labels))` of
`_extract_detections`, over the already-enumerated zipped list. -/
def extract_detections_aux (W H : ℚ) :
    List (Nat × (List ℚ × Option String)) → Except Fault (List Detection)
  | [] => .ok []
  | (i, (bbox, label)) :: rest =>
    match convert_bbox bbox W H, extract_detections_aux W H rest with
    | .ok bb, .ok ds => .ok (⟨detectionLabel label i, bb⟩ :: ds)
    | .error e, _ => .error e
    | .ok _, .error e => .error e

/-- `_extract_detections`: build one `Detection` per `(bbox, label)` pair,
in input order. -/
def extract_detections (bboxes : List (List ℚ)) (labels : List (Option String))
    (W H : ℚ) : Except Fault (List Detection) :=
  extract_detections_aux W H (List.enumFrom 0 (bboxes.zip labels))

/-! ### Polylines (`_extract_polylines`) -/

/-- a FiftyOne `Polyline`: a list of contours (each a point list), a
label, and the `filled` / `closed` flags. -/
structure Polyline where
  points : List (List (ℚ × ℚ))
  label : String
  filled : Bool
  closed : Bool
deriving Repr, DecidableEq

/-- the inner loop `for contour in polygon`: reconstruct every contour of
one polygon entry. -/
def polygonContours (W H : ℚ) : List (List ℚ) → Except Fault (List (List (ℚ × ℚ)))
  | [] => .ok []
  | c :: rest =>
    match contourStaircase c W H, polygonContours W H rest with
    | .ok pts, .ok r => .ok (pts :: r)
    | .error e, _ => .error e
    | .ok _, .error e => .error e

/-- the outer loop `for k, polygon in enumerate(polygons)`: one `Polyline`
per polygon entry, aggregating all its contours, labelled
`object_{k+1}` with `filled=True, closed=True`. -/
def extract_polylines_aux (W H : ℚ) :
    List (Nat × List (List ℚ)) → Except Fault (List Polyline)
  | [] => .ok []
  | (k, polygon) :: rest =>
    match polygonContours W H polygon, extract_polylines_aux W H rest with
    | .ok cs, .ok ps => .ok (⟨cs, "object_" ++ toString (k + 1), true, true⟩ :: ps)
    | .error e, _ => .error e
    | .ok _, .error e => .error e

/-- `_extract_polylines`: `if not polygons: return None`, else build the
per-polygon `Polyline` list. -/
def extract_polylines (polygons : List (List (List ℚ))) (W H : ℚ) :
    Except Fault (Option (List Polyline)) :=
  if polygons = [] then .ok none
  else
    match extract_polylines_aux W H (List.enumFrom 0 polygons) with
    | .ok ps => .ok (some ps)
    | .error e => .error e

/-! ### Helper lemmas: de-interleaving -/

/-- filtering an enumeration by a parity-style predicate is invariant under
shifting the start index by 2. -/
lemma enumFrom_filter_shift (p : Nat → Bool) (hp : ∀ n, p (n + 2) = p n) :
    ∀ (l : List ℚ) (n : Nat),
      ((List.enumFrom (n + 2) l).filter (fun q => p q.1)).map Prod.snd =
        ((List.enumFrom n l).filter (fun q => p q.1)).map Prod.snd := by
  intro l
  induction l with
  | nil => intro n; rfl
  | cons a l ih =>
    intro n
    have h3 : n + 2 + 1 = (n + 1) + 2 := by omega
    simp only [List.enumFrom, List.filter_cons, hp n, h3]
    cases hpn : p n <;> simp [hpn, ih (n + 1)]

lemma x_points_cons₂ (a b : ℚ) (l : List ℚ) :
    x_points_of (a :: b :: l) = a :: x_points_of l := by
  simp only [x_points_of, List.enumFrom, List.filter_cons]
  norm_num
  exact enumFrom_filter_shift (fun n => n % 2 == 0) (fun n => by simp [Nat.add_mod_right]) l 0

lemma y_points_cons₂ (a b : ℚ) (l : List ℚ) :
    y_points_of (a :: b :: l) = b :: y_points_of l := by
  simp only [y_points_of, List.enumFrom, List.filter_cons]
  norm_num
  exact enumFrom_filter_shift (fun n => !(n % 2 == 0)) (fun n => by simp [Nat.add_mod_right]) l 0

lemma points_of_interleave : ∀ (xs ys : List ℚ), xs.length = ys.length →
    x_points_of (interleave xs ys) = xs ∧ y_points_of (interleave xs ys) = ys
  | [], [], _ => ⟨rfl, rfl⟩
  | [], _ :: _, h => by simp at h
  | _ :: _, [], h => by simp at h
  | x :: xs, y :: ys, h => by
    have ih := points_of_interleave xs ys (by simpa using h)
    simp [interleave, x_points_cons₂, y_points_cons₂, ih.1, ih.2]

lemma interleave_points : ∀ (l : List ℚ), l.length % 2 = 0 →
    interleave (x_points_of l) (y_points_of l) = l ∧
      (x_points_of l).length = (y_points_of l).length
  | [], _ => ⟨rfl, rfl⟩
  | [_], h => by simp at h
  | a :: b :: l, h => by
    have hl : l.length % 2 = 0 := by simp only [List.length_cons] at h; omega
    obtain ⟨ih1, ih2⟩ := interleave_points l hl
    rw [x_points_cons₂, y_points_cons₂]
    constructor
    · show a :: b :: interleave (x_points_of l) (y_points_of l) = a :: b :: l
      rw [ih1]
    · show (a :: x_points_of l).length = (b :: y_points_of l).length
      simp [ih2]

lemma points_length_odd : ∀ (l : List ℚ), l.length % 2 = 1 →
    (x_points_of l).length = (y_points_of l).length + 1
  | [], h => by simp at h
  | [a], _ => by
    show (x_points_of [a]).length = (y_points_of [a]).length + 1
    rfl
  | a :: b :: l, h => by
    have hl : l.length % 2 = 1 := by simp only [List.length_cons] at h; omega
    have ih := points_length_odd l hl
    rw [x_points_cons₂, y_points_cons₂]
    simp [ih]

/-! ### Helper lemmas: the staircase loop -/

/-- when both coordinate sequences have equal length, the staircase loop
run from index `i` emits exactly the spec's step sequence over the
remaining suffixes, and finishes with `curr_y` equal to the last remaining
y (or the incoming `prevY` when no index remains). -/
lemma stairAux_spec (xs ys : List ℚ) (h : xs.length = ys.length) :
    ∀ (n i : Nat) (prevY : ℚ), i + n = xs.length →
      stairAux xs ys prevY (List.range' i n) =
        .ok (specStaircaseAux prevY (xs.drop i) (ys.drop i),
             (ys.drop i).getLastD prevY) := by
  intro n
  induction n with
  | zero =>
    intro i prevY hi
    have hxs : xs.drop i = [] := List.drop_eq_nil_of_le (by omega)
    have hys : ys.drop i = [] := List.drop_eq_nil_of_le (by omega)
    simp [stairAux, List.range', hxs, hys, specStaircaseAux]
  | succ n ih =>
    intro i prevY hi
    have hxi : i < xs.length := by omega
    have hyi : i < ys.length := by omega
    have hdx : xs.drop i = xs.get ⟨i, hxi⟩ :: xs.drop (i + 1) :=
      List.drop_eq_getElem_cons hxi
    have hdy : ys.drop i = ys.get ⟨i, hyi⟩ :: ys.drop (i + 1) :=
      List.drop_eq_getElem_cons hyi
    rw [show List.range' i (n + 1) = i :: List.range' (i + 1) n from rfl]
    simp only [stairAux, List.get?_eq_get hxi, List.get?_eq_get hyi]
    rw [ih (i + 1) (ys.get ⟨i, hyi⟩) (by omega)]
    rw [hdx, hdy, List.getLastD_cons]
    rfl

/-- when the y-sequence is strictly shorter than the x-sequence, the
staircase loop started at any index at or below the y-length hits an
out-of-range access. -/
lemma stairAux_short (xs ys : List ℚ) (hlt : ys.length < xs.length) :
    ∀ (n i : Nat) (prevY : ℚ), i + n = xs.length → i ≤ ys.length →
      stairAux xs ys prevY (List.range' i n) = .error .indexOutOfRange := by
  intro n
  induction n with
  | zero => intro i prevY hi hle; exfalso; omega
  | succ n ih =>
    intro i prevY hi hle
    have hxi : i < xs.length := by omega
    rw [show List.range' i (n + 1) = i :: List.range' (i + 1) n from rfl]
    rcases Nat.lt_or_ge i ys.length with hyi | hyi
    · simp only [stairAux, List.get?_eq_get hxi, List.get?_eq_get hyi]
      rw [ih (i + 1) (ys.get ⟨i, hyi⟩) (by omega) (by omega)]
    · have hnone : ys.get? i = none := List.get?_eq_none.mpr (by omega)
      simp only [stairAux, List.get?_eq_get hxi, hnone]

/-- the central reconstruction lemma: on a well-formed interleaved contour
the code's staircase reconstruction equals the spec's staircase point
sequence over the normalized coordinate sequences. -/
lemma contourStaircase_interleave (xs ys : List ℚ) (h : xs.length = ys.length)
    (hne : xs ≠ []) (W H : ℚ) :
    contourStaircase (interleave xs ys) W H =
      .ok (specStaircase (xs.map (· / W)) (ys.map (· / H))) := by
  obtain ⟨px, py⟩ := points_of_interleave xs ys h
  rcases xs with _ | ⟨x0, xr⟩
  · exact absurd rfl hne
  rcases ys with _ | ⟨y0, yr⟩
  · simp at h
  have h' : ((x0 :: xr).map (· / W)).length = ((y0 :: yr).map (· / H)).length := by
    simpa using h
  simp only [contourStaircase, px, py, List.map_cons, List.get?]
  have hr := stairAux_spec ((x0 :: xr).map (· / W)) ((y0 :: yr).map (· / H)) h'
    ((xr.map (· / W)).length) 1 (y0 / H)
    (by simp only [List.length_map, List.length_cons]; omega)
  simp only [List.map_cons] at hr
  rw [show ((x0 / W :: xr.map (· / W)).length - 1) = (xr.map (· / W)).length by simp]
  rw [hr]
  simp [specStaircase, List.getLastD_cons]

/-! ### Helper lemmas: length and membership of the staircase sequence -/

lemma specStaircaseAux_length : ∀ (xs ys : List ℚ) (prevY : ℚ),
    xs.length = ys.length → (specStaircaseAux prevY xs ys).length = 2 * xs.length
  | [], [], _, _ => rfl
  | [], _ :: _, _, h => by simp at h
  | _ :: _, [], _, h => by simp at h
  | x :: xs, y :: ys, prevY, h => by
    have ih := specStaircaseAux_length xs ys y (by simpa using h)
    simp only [specStaircaseAux, List.length_cons, ih]
    ring

lemma specStaircase_length (xs ys : List ℚ) (h : xs.length = ys.length)
    (hne : xs ≠ []) :
    (specStaircase xs ys).length = 2 * (xs.length - 1) + 2 := by
  rcases xs with _ | ⟨x0, xr⟩
  · exact absurd rfl hne
  rcases ys with _ | ⟨y0, yr⟩
  · simp at h
  have ha := specStaircaseAux_length xr yr y0 (by simpa using h)
  simp only [specStaircase, List.length_append, List.length_cons, ha]
  simp

lemma specStaircaseAux_mem : ∀ (xs ys : List ℚ) (prevY : ℚ) (p : ℚ × ℚ),
    p ∈ specStaircaseAux prevY xs ys → p.1 ∈ xs ∧ (p.2 = prevY ∨ p.2 ∈ ys)
  | [], _, _, _, hp => by simp [specStaircaseAux] at hp
  | _ :: _, [], _, _, hp => by simp [specStaircaseAux] at hp
  | x :: xs, y :: ys, prevY, p, hp => by
    rcases List.mem_cons.mp hp with rfl | hp'
    · exact ⟨List.mem_cons_self _ _, Or.inl rfl⟩
    rcases List.mem_cons.mp hp' with rfl | hp''
    · exact ⟨List.mem_cons_self _ _, Or.inr (List.mem_cons_self _ _)⟩
    obtain ⟨h1, h2⟩ := specStaircaseAux_mem xs ys y p hp''
    refine ⟨List.mem_cons_of_mem _ h1, Or.inr ?_⟩
    rcases h2 with rfl | h2
    · exact List.mem_cons_self _ _
    · exact List.mem_cons_of_mem _ h2

lemma specStaircase_mem (xs ys : List ℚ) (p : ℚ × ℚ)
    (hp : p ∈ specStaircase xs ys) : p.1 ∈ xs ∧ p.2 ∈ ys := by
  rcases xs with _ | ⟨x0, xr⟩
  · simp [specStaircase] at hp
  rcases ys with _ | ⟨y0, yr⟩
  · simp [specStaircase] at hp
  simp only [specStaircase] at hp
  rcases List.mem_cons.mp hp with rfl | hp'
  · exact ⟨List.mem_cons_self _ _, List.mem_cons_self _ _⟩
  rcases List.mem_append.mp hp' with hmid | hlast
  · obtain ⟨h1, h2⟩ := specStaircaseAux_mem xr yr y0 p hmid
    refine ⟨List.mem_cons_of_mem _ h1, ?_⟩
    rcases h2 with rfl | h2
    · exact List.mem_cons_self _ _
    · exact List.mem_cons_of_mem _ h2
  · rcases List.mem_singleton.mp hlast with rfl
    exact ⟨List.mem_cons_self _ _, List.getLastD_mem_cons yr y0⟩

/-! ### Helper lemmas: success and failure of the contour reconstruction -/

lemma contourStaircase_ok (contour : List ℚ) (hne : contour ≠ [])
    (hev : contour.length % 2 = 0) (W H : ℚ) :
    contourStaircase contour W H =
      .ok (specStaircase ((x_points_of contour).map (· / W))
           ((y_points_of contour).map (· / H))) := by
  obtain ⟨hint, hlen⟩ := interleave_points contour hev
  have hxne : x_points_of contour ≠ [] := by
    intro hx
    have hy : y_points_of contour = [] := by
      have := hlen
      rw [hx] at this
      exact List.eq_nil_of_length_eq_zero this.symm
    rw [hx, hy] at hint
    exact hne (hint.symm.trans rfl)
  conv_lhs => rw [← hint]
  exact contourStaircase_interleave _ _ hlen hxne W H

lemma contourStaircase_err (contour : List ℚ) (W H : ℚ)
    (h : contour = [] ∨ contour.length % 2 = 1) :
    contourStaircase contour W H = .error .indexOutOfRange := by
  rcases h with rfl | hodd
  · rfl
  have hlen := points_length_odd contour hodd
  rcases hx : x_points_of contour with _ | ⟨x0, xr⟩
  · rw [hx] at hlen; simp at hlen
  rcases hy : y_points_of contour with _ | ⟨y0, yr⟩
  · simp only [contourStaircase, hx, hy, List.map_cons, List.map_nil, List.get?]
  · rw [hx, hy] at hlen
    simp only [List.length_cons] at hlen
    have hlt : ((y0 :: yr).map (· / H)).length < ((x0 :: xr).map (· / W)).length := by
      simp only [List.length_map, List.length_cons]; omega
    have herr := stairAux_short ((x0 :: xr).map (· / W)) ((y0 :: yr).map (· / H)) hlt
      ((xr.map (· / W)).length) 1 (y0 / H)
      (by simp only [List.length_map, List.length_cons]; omega)
      (by simp only [List.length_map, List.length_cons]; omega)
    simp only [List.map_cons] at herr
    simp only [contourStaircase, hx, hy, List.map_cons, List.get?]
    rw [show ((x0 / W :: xr.map (· / W)).length - 1) = (xr.map (· / W)).length by simp]
    rw [herr]

/-! ### Helper lemmas: detection extraction -/

lemma extract_detections_aux_spec (W H : ℚ) :
    ∀ (l : List (List ℚ × Option String)) (n : Nat),
      (∀ p ∈ l, ∃ r, convert_bbox p.1 W H = .ok r) →
      ∃ ds, extract_detections_aux W H (List.enumFrom n l) = .ok ds ∧
        ds.length = l.length ∧
        ∀ (i : Nat) (hi : i < ds.length) (hl : i < l.length),
          (ds.get ⟨i, hi⟩).label = detectionLabel (l.get ⟨i, hl⟩).2 (n + i) ∧
          convert_bbox (l.get ⟨i, hl⟩).1 W H =
            .ok ((ds.get ⟨i, hi⟩).bounding_box) := by
  intro l
  induction l with
  | nil =>
    intro n _
    exact ⟨[], rfl, rfl, fun i hi _ => absurd hi (by simp)⟩
  | cons p rest ih =>
    intro n hok
    obtain ⟨bbox, label⟩ := p
    obtain ⟨r, hr⟩ := hok (bbox, label) (List.mem_cons_self _ _)
    obtain ⟨ds, hds, hlen, hspec⟩ :=
      ih (n + 1) (fun q hq => hok q (List.mem_cons_of_mem _ hq))
    refine ⟨⟨detectionLabel label n, r⟩ :: ds, ?_, by simp [hlen], ?_⟩
    · simp only [List.enumFrom, extract_detections_aux, hr, hds]
    · intro i hi hl
      cases i with
      | zero => exact ⟨rfl, hr⟩
      | succ i =>
        have hi' : i < ds.length := by simp at hi; omega
        have hl' : i < rest.length := by simp at hl; omega
        obtain ⟨h1, h2⟩ := hspec i hi' hl'
        have e1 : ((⟨detectionLabel label n, r⟩ : Detection) :: ds).get ⟨i + 1, hi⟩ =
            ds.get ⟨i, hi'⟩ := rfl
        have e2 : (((bbox, label) :: rest).get ⟨i + 1, hl⟩) = rest.get ⟨i, hl'⟩ := rfl
        refine ⟨?_, ?_⟩
        · rw [e1, e2, h1]
          congr 1
          omega
        · rw [e1, e2]
          exact h2

/-! ### Helper lemmas: polyline extraction -/

lemma polygonContours_ok (W H : ℚ) :
    ∀ (polygon : List (List ℚ)),
      (∀ c ∈ polygon, c ≠ [] ∧ c.length % 2 = 0) →
      ∃ cs, polygonContours W H polygon = .ok cs ∧ cs.length = polygon.length
  | [], _ => ⟨[], rfl, rfl⟩
  | c :: rest, hwf => by
    obtain ⟨hne, hev⟩ := hwf c (List.mem_cons_self _ _)
    obtain ⟨cs, hcs, hlen⟩ :=
      polygonContours_ok W H rest (fun d hd => hwf d (List.mem_cons_of_mem _ hd))
    refine ⟨specStaircase ((x_points_of c).map (· / W))
      ((y_points_of c).map (· / H)) :: cs, ?_, by simp [hlen]⟩
    simp only [polygonContours, contourStaircase_ok c hne hev W H, hcs]

lemma extract_polylines_aux_spec (W H : ℚ) :
    ∀ (polys : List (List (List ℚ))) (n : Nat),
      (∀ poly ∈ polys, ∀ c ∈ poly, c ≠ [] ∧ c.length % 2 = 0) →
      ∃ ps, extract_polylines_aux W H (List.enumFrom n polys) = .ok ps ∧
        ps.length = polys.length ∧
        ∀ (k : Nat) (hk : k < ps.length) (hp : k < polys.length),
          (ps.get ⟨k, hk⟩).label = "object_" ++ toString (n + k + 1) ∧
          (ps.get ⟨k, hk⟩).filled = true ∧
          (ps.get ⟨k, hk⟩).closed = true ∧
          polygonContours W H (polys.get ⟨k, hp⟩) = .ok ((ps.get ⟨k, hk⟩).points) := by
  intro polys
  induction polys with
  | nil =>
    intro n _
    exact ⟨[], rfl, rfl, fun k hk _ => absurd hk (by simp)⟩
  | cons poly rest ih =>
    intro n hwf
    obtain ⟨cs, hcs, _⟩ :=
      polygonContours_ok W H poly (hwf poly (List.mem_cons_self _ _))
    obtain ⟨ps, hps, hlen, hspec⟩ :=
      ih (n + 1) (fun q hq => hwf q (List.mem_cons_of_mem _ hq))
    refine ⟨⟨cs, "object_" ++ toString (n + 1), true, true⟩ :: ps, ?_,
      by simp [hlen], ?_⟩
    · simp only [List.enumFrom, extract_polylines_aux, hcs, hps]
    · intro k hk hp
      cases k with
      | zero => exact ⟨by simp, rfl, rfl, hcs⟩
      | succ k =>
        have hk' : k < ps.length := by simp at hk; omega
        have hp' : k < rest.length := by simp at hp; omega
        obtain ⟨h1, h2, h3, h4⟩ := hspec k hk' hp'
        have e1 : ((⟨cs, "object_" ++ toString (n + 1), true, true⟩ : Polyline) :: ps).get
            ⟨k + 1, hk⟩ = ps.get ⟨k, hk'⟩ := rfl
        have e2 : ((poly :: rest).get ⟨k + 1, hp⟩) = rest.get ⟨k, hp'⟩ := rfl
        refine ⟨?_, ?_, ?_, ?_⟩
        · rw [e1, h1]
          congr 2
          omega
        · rw [e1]; exact h2
        · rw [e1]; exact h3
        · rw [e1, e2]; exact h4

/-- substring containment is preserved by prepending arbitrary text. -/
lemma subChars_append (pat l1 l2 : List Char) (h : subChars pat l2 = true) :
    subChars pat (l1 ++ l2) = true := by
  induction l1 with
  | nil => simpa using h
  | cons a l ih => simp [subChars, ih]

/-- unfolding lemmas for `convert_bbox` on the two accepted shapes. -/
lemma convert_bbox_four (W H a b c d : ℚ) :
    convert_bbox [a, b, c, d] W H =
      .ok [a / W, b / H, (c - a) / W, (d - b) / H] := rfl

lemma convert_bbox_err (W H : ℚ) : ∀ (bbox : List ℚ),
    bbox.length ≠ 4 → bbox.length ≠ 8 →
    convert_bbox bbox W H = .error .unpackMismatch
  | [], _, _ => rfl
  | [_], _, _ => rfl
  | [_, _], _, _ => rfl
  | [_, _, _], _, _ => rfl
  | [_, _, _, _], h4, _ => absurd rfl h4
  | [_, _, _, _, _], _, _ => rfl
  | [_, _, _, _, _, _], _, _ => rfl
  | [_, _, _, _, _, _, _], _, _ => rfl
  | [_, _, _, _, _, _, _, _], _, h8 => absurd rfl h8
  | _ :: _ :: _ :: _ :: _ :: _ :: _ :: _ :: _ :: _, _, _ => rfl

lemma convert_bbox_ok (W H : ℚ) : ∀ (bbox : List ℚ),
    bbox.length = 4 ∨ bbox.length = 8 → ∃ r, convert_bbox bbox W H = .ok r
  | [_, _, _, _], _ => ⟨_, rfl⟩
  | [_, _, _, _, _, _, _, _], _ => ⟨_, rfl⟩
  | [], h => by simp at h
  | [_], h => by simp at h
  | [_, _], h => by simp at h
  | [_, _, _], h => by simp at h
  | [_, _, _, _, _], h => by simp at h
  | [_, _, _, _, _, _], h => by simp at h
  | [_, _, _, _, _, _, _], h => by simp at h
  | _ :: _ :: _ :: _ :: _ :: _ :: _ :: _ :: _ :: _, h => by simp at h

/-! ## The claims -/

/-- C2: for a length-4 list `[x1,y1,x2,y2]` and `W, H > 0`, `_convert_bbox`
returns exactly `[x1/W, y1/H, (x2-x1)/W, (y2-y1)/H]` with no clamping or
reordering (a negative width for `x2 < x1` passes through unchanged), and
for a length-8 list it returns the result of applying the same length-4
formula to the axis-aligned min/max rectangle of the four points. -/
theorem convert_bbox_correct (W H : ℚ) (hW : 0 < W) (hH : 0 < H) :
    (∀ x1 y1 x2 y2 : ℚ,
      convert_bbox [x1, y1, x2, y2] W H =
        .ok [x1 / W, y1 / H, (x2 - x1) / W, (y2 - y1) / H]) ∧
    (∀ x1 y1 x2 y2 x3 y3 x4 y4 : ℚ,
      convert_bbox [x1, y1, x2, y2, x3, y3, x4, y4] W H =
        convert_bbox
          [min (min (min x1 x2) x3) x4, min (min (min y1 y2) y3) y4,
           max (max (max x1 x2) x3) x4, max (max (max y1 y2) y3) y4] W H) :=
  ⟨fun _ _ _ _ => rfl, fun _ _ _ _ _ _ _ _ => rfl⟩

/-- witness for C2 at `bbox = [10,20,110,220]`, `W = 100`, `H = 200`. -/
theorem convert_bbox_correct_witness :
    convert_bbox [10, 20, 110, 220] 100 200 =
      .ok [10 / 100, 20 / 200, (110 - 10) / 100, (220 - 20) / 200] :=
  (convert_bbox_correct 100 200 (by decide) (by decide)).1 10 20 110 220

/-- C7: constructing with an operation name outside the set
`{caption, ocr, detection, phrase_grounding, segmentation}` raises a
`ValueError` whose message lists the five valid operation names (and no
model is loaded). -/
theorem invalid_operation_error (op : String) (hop : op ∉ florence2OperationKeys)
    (kwargs : Kwargs) :
    (florence2_init op kwargs).1 = .error (invalidOperationMessage op) ∧
    (florence2_init op kwargs).2 = [] ∧
    ∀ k ∈ florence2OperationKeys, strHasSub (invalidOperationMessage op) k = true := by
  refine ⟨?_, ?_, ?_⟩
  · simp only [florence2_init, if_pos hop]
  · simp only [florence2_init, if_pos hop]
  · intro k hk
    have hd : (invalidOperationMessage op).data =
        ("Invalid operation: " ++ op ++ ". Must be one of ").data ++
          (pyListRepr florence2OperationKeys).data := rfl
    show subChars k.data (invalidOperationMessage op).data = true
    rw [hd]
    apply subChars_append
    fin_cases hk <;> decide

/-- witness for C7 at `operation = "translate"`. -/
theorem invalid_operation_error_witness :
    (florence2_init "translate" {}).1 = .error (invalidOperationMessage "translate") ∧
    strHasSub (invalidOperationMessage "translate") "segmentation" = true := by
  obtain ⟨h1, _, h3⟩ := invalid_operation_error "translate" (by decide) {}
  exact ⟨h1, h3 "segmentation" (by decide)⟩

/-- C8: for the caption operation, any unrecognized `detail_level` value
resolves to the same task identifier as an absent `detail_level`: both map
to the basic-caption identifier `"<CAPTION>"`, with no error raised. -/
theorem detail_level_fallback (s : String)
    (h1 : s ≠ "detailed") (h2 : s ≠ "more_detailed") (h3 : s ≠ "basic") :
    predictCaptionTask (some s) = predictCaptionTask none ∧
    predictCaptionTask none = "<CAPTION>" := by
  constructor
  · simp [predictCaptionTask, caption_task_mapping, h1, h2, h3]
  · rfl

/-- witness for C8 at `detail_level = "unsupported_value"`. -/
theorem detail_level_fallback_witness :
    predictCaptionTask (some "unsupported_value") = predictCaptionTask none ∧
    predictCaptionTask none = "<CAPTION>" :=
  detail_level_fallback "unsupported_value" (by decide) (by decide) (by decide)

/-- C6: constructing with `operation="phrase_grounding"` and neither
`caption` nor `caption_field` raises a `ValueError` naming both parameter
names, before any model-loading side effect (the event trace is empty);
likewise for `segmentation` without `expression`/`expression_field`. -/
theorem construction_validation_fails_fast (kwargs kwargs' : Kwargs)
    (hc : kwargs.caption = none) (hcf : kwargs.caption_field = none)
    (he : kwargs'.expression = none) (hef : kwargs'.expression_field = none) :
    ((florence2_init "phrase_grounding" kwargs).1 = .error missingCaptionMessage ∧
     (florence2_init "phrase_grounding" kwargs).2 = [] ∧
     strHasSub missingCaptionMessage "caption" = true ∧
     strHasSub missingCaptionMessage "caption_field" = true) ∧
    ((florence2_init "segmentation" kwargs').1 = .error missingExpressionMessage ∧
     (florence2_init "segmentation" kwargs').2 = [] ∧
     strHasSub missingExpressionMessage "expression" = true ∧
     strHasSub missingExpressionMessage "expression_field" = true) := by
  have hpg : florence2_init "phrase_grounding" kwargs =
      (.error missingCaptionMessage, []) := by
    simp only [florence2_init]
    rw [if_neg (by decide), if_pos ⟨trivial, hcf, hc⟩]
  have hsg : florence2_init "segmentation" kwargs' =
      (.error missingExpressionMessage, []) := by
    simp only [florence2_init]
    rw [if_neg (by decide), if_neg (by rintro ⟨h, -⟩; exact absurd h (by decide)),
      if_pos ⟨trivial, hef, he⟩]
  exact ⟨⟨by rw [hpg], by rw [hpg], by decide, by decide⟩,
         ⟨by rw [hsg], by rw [hsg], by decide, by decide⟩⟩

/-- witness for C6 at empty keyword arguments. -/
theorem construction_validation_witness :
    (florence2_init "phrase_grounding" {}).1 = .error missingCaptionMessage ∧
    (florence2_init "segmentation" {}).1 = .error missingExpressionMessage := by
  obtain ⟨⟨h1, -, -, -⟩, ⟨h2, -, -, -⟩⟩ :=
    construction_validation_fails_fast {} {} rfl rfl rfl rfl
  exact ⟨h1, h2⟩

/-- C10: when both the literal parameter and its field-reference
counterpart are supplied, construction succeeds and prediction builds its
text input from the literal parameter, ignoring the field reference. -/
theorem literal_param_precedence (lit fld lit' fld' : String)
    (kwargs kwargs' : Kwargs)
    (hc : kwargs.caption = some lit) (hcf : kwargs.caption_field = some fld)
    (he : kwargs'.expression = some lit')
    (hef : kwargs'.expression_field = some fld') :
    ((florence2_init "phrase_grounding" kwargs).1 =
        .ok ⟨"phrase_grounding", kwargs⟩ ∧
     predict_phrase_grounding_text kwargs =
        .ok ("<CAPTION_TO_PHRASE_GROUNDING>" ++ "\n" ++ lit)) ∧
    ((florence2_init "segmentation" kwargs').1 = .ok ⟨"segmentation", kwargs'⟩ ∧
     predict_segmentation_text kwargs' =
        .ok ("<REFERRING_EXPRESSION_SEGMENTATION>" ++ "\nExpression: " ++ lit')) := by
  refine ⟨⟨?_, ?_⟩, ⟨?_, ?_⟩⟩
  · simp only [florence2_init]
    rw [if_neg (by decide),
      if_neg (by rintro ⟨-, h, -⟩; rw [hcf] at h; exact Option.noConfusion h),
      if_neg (by rintro ⟨h, -⟩; exact absurd h (by decide))]
  · simp only [predict_phrase_grounding_text, hc]
  · simp only [florence2_init]
    rw [if_neg (by decide),
      if_neg (by rintro ⟨h, -⟩; exact absurd h (by decide)),
      if_neg (by rintro ⟨-, h, -⟩; rw [hef] at h; exact Option.noConfusion h)]
  · simp only [predict_segmentation_text, he]

/-- witness for C10 at concrete literal/field pairs. -/
theorem literal_param_precedence_witness :
    predict_phrase_grounding_text
        { caption := some "a cat", caption_field := some "cap_field" } =
      .ok ("<CAPTION_TO_PHRASE_GROUNDING>" ++ "\n" ++ "a cat") ∧
    predict_segmentation_text
        { expression := some "the dog", expression_field := some "expr_field" } =
      .ok ("<REFERRING_EXPRESSION_SEGMENTATION>" ++ "\nExpression: " ++ "the dog") := by
  obtain ⟨⟨-, h1⟩, ⟨-, h2⟩⟩ := literal_param_precedence "a cat" "cap_field"
    "the dog" "expr_field"
    { caption := some "a cat", caption_field := some "cap_field" }
    { expression := some "the dog", expression_field := some "expr_field" }
    rfl rfl rfl rfl
  exact ⟨h1, h2⟩

/-- C1: for a contour interleaving N x-coordinates with N y-coordinates
(N ≥ 1) and image dimensions `W, H > 0`, `_extract_polylines` first
normalizes every x by W and every y by H and then emits exactly the
staircase sequence: `(x[0], y[0])`, then for each i from 1 the pair
`(x[i], y[i-1])`, `(x[i], y[i])`, then the closing point
`(x[0], y[N-1])` — in total `2*(N-1) + 2` points. -/
theorem staircase_reconstruction (xs ys : List ℚ) (W H : ℚ)
    (hlen : xs.length = ys.length) (hne : xs ≠ []) (hW : 0 < W) (hH : 0 < H) :
    contourStaircase (interleave xs ys) W H =
      .ok (specStaircase (xs.map (· / W)) (ys.map (· / H))) ∧
    (specStaircase (xs.map (· / W)) (ys.map (· / H))).length =
      2 * (xs.length - 1) + 2 := by
  refine ⟨contourStaircase_interleave xs ys hlen hne W H, ?_⟩
  have h := specStaircase_length (xs.map (· / W)) (ys.map (· / H))
    (by simp [hlen]) (by simpa using hne)
  simpa using h

/-- witness for C1 at `xs = [1,2,3]`, `ys = [4,5,6]`, `W = 10`, `H = 20`. -/
theorem staircase_reconstruction_witness :
    contourStaircase (interleave [1, 2, 3] [4, 5, 6]) 10 20 =
      .ok (specStaircase ([(1 : ℚ), 2, 3].map (· / 10)) ([(4 : ℚ), 5, 6].map (· / 20))) ∧
    (specStaircase ([(1 : ℚ), 2, 3].map (· / 10)) ([(4 : ℚ), 5, 6].map (· / 20))).length =
      2 * (([(1 : ℚ), 2, 3] : List ℚ).length - 1) + 2 :=
  staircase_reconstruction [1, 2, 3] [4, 5, 6] 10 20
    (by decide) (by decide) (by decide) (by decide)

/-- C9: under the precondition that every coordinate list has length 4 or
8 and every contour is non-empty and of even length, the geometry
normalization succeeds; any violation (another list length, an empty or
odd-length contour) is not guarded or recovered but surfaces as a fault
(tuple-unpack `ValueError` / `IndexError`). -/
theorem geometry_precondition (W H : ℚ) :
    (∀ bbox : List ℚ, bbox.length = 4 ∨ bbox.length = 8 →
      ∃ r, convert_bbox bbox W H = .ok r) ∧
    (∀ bbox : List ℚ, bbox.length ≠ 4 → bbox.length ≠ 8 →
      convert_bbox bbox W H = .error Fault.unpackMismatch) ∧
    (∀ contour : List ℚ, contour ≠ [] → contour.length % 2 = 0 →
      ∃ pts, contourStaircase contour W H = .ok pts) ∧
    (∀ contour : List ℚ, contour = [] ∨ contour.length % 2 = 1 →
      contourStaircase contour W H = .error Fault.indexOutOfRange) :=
  ⟨convert_bbox_ok W H, convert_bbox_err W H,
   fun contour hne hev => ⟨_, contourStaircase_ok contour hne hev W H⟩,
   fun contour h => contourStaircase_err contour W H h⟩

/-- witness for C9: a length-4 box and an even contour succeed; a
length-3 list and an odd contour fault. -/
theorem geometry_precondition_witness :
    (∃ r, convert_bbox [1, 2, 3, 4] 10 10 = .ok r) ∧
    convert_bbox [1, 2, 3] 10 10 = .error Fault.unpackMismatch ∧
    (∃ pts, contourStaircase [1, 2, 3, 4] 10 10 = .ok pts) ∧
    contourStaircase [5] 10 10 = .error Fault.indexOutOfRange := by
  obtain ⟨h1, h2, h3, h4⟩ := geometry_precondition (10 : ℚ) 10
  exact ⟨h1 [1, 2, 3, 4] (Or.inl (by decide)), h2 [1, 2, 3] (by decide) (by decide),
         h3 [1, 2, 3, 4] (by decide) (by decide), h4 [5] (Or.inr (by decide))⟩

/-- C5: an empty top-level polygons list yields an absent result (`none`),
not an empty collection; a non-empty list yields a present result with one
polyline per polygon entry k, aggregating all of the entry's contours
under the single label `"object_" ++ (k+1)` with `filled = true` and
`closed = true`. -/
theorem polylines_presence_and_labels (polygons : List (List (List ℚ)))
    (W H : ℚ)
    (hwf : ∀ poly ∈ polygons, ∀ c ∈ poly, c ≠ [] ∧ c.length % 2 = 0) :
    (polygons = [] → extract_polylines polygons W H = .ok none) ∧
    (polygons ≠ [] → ∃ ps, extract_polylines polygons W H = .ok (some ps) ∧
      ps.length = polygons.length ∧
      ∀ (k : Nat) (hk : k < ps.length) (hp : k < polygons.length),
        (ps.get ⟨k, hk⟩).label = "object_" ++ toString (k + 1) ∧
        (ps.get ⟨k, hk⟩).filled = true ∧
        (ps.get ⟨k, hk⟩).closed = true ∧
        polygonContours W H (polygons.get ⟨k, hp⟩) =
          .ok ((ps.get ⟨k, hk⟩).points)) := by
  constructor
  · rintro rfl; rfl
  · intro hne
    obtain ⟨ps, hps, hlen, hspec⟩ :=
      extract_polylines_aux_spec W H polygons 0 hwf
    refine ⟨ps, ?_, hlen, ?_⟩
    · simp only [extract_polylines, if_neg hne, hps]
    · intro k hk hp
      obtain ⟨h1, h2, h3, h4⟩ := hspec k hk hp
      refine ⟨?_, h2, h3, h4⟩
      rw [h1]
      simp

/-- witness for C5 at one polygon with one 2-point contour. -/
theorem polylines_presence_witness :
    ∃ ps, extract_polylines [[[1, 2, 3, 4]]] 10 10 = .ok (some ps) ∧
      ps.length = 1 := by
  obtain ⟨-, h⟩ := polylines_presence_and_labels [[[1, 2, 3, 4]]] 10 10 (by decide)
  obtain ⟨ps, hps, hlen, -⟩ := h (by decide)
  exact ⟨ps, hps, by rw [hlen]; rfl⟩

/-- C4: `_extract_detections` emits detections in input order (the i-th
output is built from the i-th coordinate-list/label pair — no
confidence-based sorting), and the i-th label is `"object_" ++ (i+1)`
exactly when the raw label at position i is `None` or empty, and the raw
label unchanged otherwise. -/
theorem detections_order_and_labels (bboxes : List (List ℚ))
    (labels : List (Option String)) (W H : ℚ)
    (hlen : bboxes.length = labels.length)
    (hok : ∀ b ∈ bboxes, b.length = 4 ∨ b.length = 8) :
    ∃ ds, extract_detections bboxes labels W H = .ok ds ∧
      ds.length = bboxes.length ∧
      ∀ (i : Nat) (hd : i < ds.length) (hb : i < bboxes.length)
        (hl : i < labels.length),
        ((labels.get ⟨i, hl⟩ = none ∨ labels.get ⟨i, hl⟩ = some "") →
          (ds.get ⟨i, hd⟩).label = "object_" ++ toString (i + 1)) ∧
        (∀ s, labels.get ⟨i, hl⟩ = some s → s ≠ "" →
          (ds.get ⟨i, hd⟩).label = s) ∧
        convert_bbox (bboxes.get ⟨i, hb⟩) W H =
          .ok ((ds.get ⟨i, hd⟩).bounding_box) := by
  have hzlen : (bboxes.zip labels).length = bboxes.length := by
    rw [List.length_zip]; omega
  obtain ⟨ds, hds, hdslen, hspec⟩ :=
    extract_detections_aux_spec W H (bboxes.zip labels) 0 (fun p hp => by
      obtain ⟨b, l⟩ := p
      exact convert_bbox_ok W H b (hok b (List.of_mem_zip hp).1))
  refine ⟨ds, hds, by rw [hdslen, hzlen], ?_⟩
  intro i hd hb hl
  have hzi : i < (bboxes.zip labels).length := by rw [hzlen]; exact hb
  have hz : (bboxes.zip labels).get ⟨i, hzi⟩ =
      (bboxes.get ⟨i, hb⟩, labels.get ⟨i, hl⟩) := by
    simp [List.get_eq_getElem, List.getElem_zip]
  obtain ⟨h1, h2⟩ := hspec i hd hzi
  rw [hz] at h1 h2
  refine ⟨?_, ?_, h2⟩
  · intro hcase
    rw [h1]
    rcases hcase with hnone | hempty
    · rw [hnone]; simp [detectionLabel]
    · rw [hempty]; simp [detectionLabel]
  · intro s hs hsne
    rw [h1, hs]
    simp [detectionLabel, hsne]

/-- witness for C4 at two boxes, an empty label and a non-empty one. -/
theorem detections_order_witness :
    ∃ ds, extract_detections [[0, 0, 2, 2], [1, 1, 3, 3]]
        [some "", some "cat"] 10 10 = .ok ds ∧ ds.length = 2 := by
  obtain ⟨ds, h1, h2, -⟩ := detections_order_and_labels
    [[0, 0, 2, 2], [1, 1, 3, 3]] [some "", some "cat"] 10 10
    (by decide) (by decide)
  exact ⟨ds, h1, by rw [h2]; rfl⟩

/-- C3, counterexample: the coordinates of `bbox = [10,10,5,5]` all lie
within `[0,100] × [0,100]`, yet `_convert_bbox` at `W = H = 100` outputs
the negative width `(5-10)/100`, which is not in `[0,1]`.  (The claim's
notion of "well-formed" does not require `x1 ≤ x2`.) -/
theorem bbox_in_bounds_not_unit_interval :
    ((0 : ℚ) ≤ 10 ∧ (10 : ℚ) ≤ 100 ∧ (0 : ℚ) ≤ 5 ∧ (5 : ℚ) ≤ 100) ∧
    convert_bbox [10, 10, 5, 5] 100 100 =
      .ok [10 / 100, 10 / 100, (5 - 10) / 100, (5 - 10) / 100] ∧
    ((5 : ℚ) - 10) / 100 < 0 :=
  ⟨by norm_num, rfl, by norm_num⟩

/-- C3 (amended): for `W, H > 0` and coordinates within
`[0,W] × [0,H]`, with the additional requirement that a length-4 box is
ordered (`x1 ≤ x2`, `y1 ≤ y2`), every coordinate produced by box
normalization and polyline normalization lies in `[0,1]`. -/
theorem normalized_coordinates_unit_interval (W H : ℚ)
    (hW : 0 < W) (hH : 0 < H) :
    (∀ x1 y1 x2 y2 : ℚ, 0 ≤ x1 → x1 ≤ x2 → x2 ≤ W →
      0 ≤ y1 → y1 ≤ y2 → y2 ≤ H →
      ∀ r, convert_bbox [x1, y1, x2, y2] W H = .ok r →
        ∀ c ∈ r, 0 ≤ c ∧ c ≤ 1) ∧
    (∀ x1 y1 x2 y2 x3 y3 x4 y4 : ℚ,
      (∀ x ∈ [x1, x2, x3, x4], 0 ≤ x ∧ x ≤ W) →
      (∀ y ∈ [y1, y2, y3, y4], 0 ≤ y ∧ y ≤ H) →
      ∀ r, convert_bbox [x1, y1, x2, y2, x3, y3, x4, y4] W H = .ok r →
        ∀ c ∈ r, 0 ≤ c ∧ c ≤ 1) ∧
    (∀ xs ys : List ℚ, xs.length = ys.length → xs ≠ [] →
      (∀ x ∈ xs, 0 ≤ x ∧ x ≤ W) → (∀ y ∈ ys, 0 ≤ y ∧ y ≤ H) →
      ∀ pts, contourStaircase (interleave xs ys) W H = .ok pts →
        ∀ p ∈ pts, (0 ≤ p.1 ∧ p.1 ≤ 1) ∧ (0 ≤ p.2 ∧ p.2 ≤ 1)) := by
  refine ⟨?_, ?_, ?_⟩
  · intro x1 y1 x2 y2 hx1 h12 h2W hy1 h34 h4H r hr c hc
    rw [convert_bbox_four] at hr
    obtain rfl : [x1 / W, y1 / H, (x2 - x1) / W, (y2 - y1) / H] = r :=
      Except.ok.inj hr
    simp only [List.mem_cons, List.not_mem_nil, or_false] at hc
    rcases hc with rfl | rfl | rfl | rfl
    · exact ⟨div_nonneg hx1 hW.le, (div_le_one hW).mpr (by linarith)⟩
    · exact ⟨div_nonneg hy1 hH.le, (div_le_one hH).mpr (by linarith)⟩
    · exact ⟨div_nonneg (by linarith) hW.le, (div_le_one hW).mpr (by linarith)⟩
    · exact ⟨div_nonneg (by linarith) hH.le, (div_le_one hH).mpr (by linarith)⟩
  · intro x1 y1 x2 y2 x3 y3 x4 y4 hx hy r hr c hc
    have h1 := hx x1 (by simp)
    have h2 := hx x2 (by simp)
    have h3 := hx x3 (by simp)
    have h4 := hx x4 (by simp)
    have g1 := hy y1 (by simp)
    have g2 := hy y2 (by simp)
    have g3 := hy y3 (by simp)
    have g4 := hy y4 (by simp)
    have hxmin0 : 0 ≤ min (min (min x1 x2) x3) x4 :=
      le_min (le_min (le_min h1.1 h2.1) h3.1) h4.1
    have hxmaxW : max (max (max x1 x2) x3) x4 ≤ W :=
      max_le (max_le (max_le h1.2 h2.2) h3.2) h4.2
    have hymin0 : 0 ≤ min (min (min y1 y2) y3) y4 :=
      le_min (le_min (le_min g1.1 g2.1) g3.1) g4.1
    have hymaxH : max (max (max y1 y2) y3) y4 ≤ H :=
      max_le (max_le (max_le g1.2 g2.2) g3.2) g4.2
    have hxm : min (min (min x1 x2) x3) x4 ≤ max (max (max x1 x2) x3) x4 :=
      le_trans (le_trans (min_le_left _ _)
          (le_trans (min_le_left _ _) (min_le_left _ _)))
        (le_trans (le_trans (le_max_left _ _) (le_max_left _ _)) (le_max_left _ _))
    have hym : min (min (min y1 y2) y3) y4 ≤ max (max (max y1 y2) y3) y4 :=
      le_trans (le_trans (min_le_left _ _)
          (le_trans (min_le_left _ _) (min_le_left _ _)))
        (le_trans (le_trans (le_max_left _ _) (le_max_left _ _)) (le_max_left _ _))
    obtain rfl :
        [min (min (min x1 x2) x3) x4 / W, min (min (min y1 y2) y3) y4 / H,
         (max (max (max x1 x2) x3) x4 - min (min (min x1 x2) x3) x4) / W,
         (max (max (max y1 y2) y3) y4 - min (min (min y1 y2) y3) y4) / H] = r :=
      Except.ok.inj hr
    simp only [List.mem_cons, List.not_mem_nil, or_false] at hc
    rcases hc with rfl | rfl | rfl | rfl
    · exact ⟨div_nonneg hxmin0 hW.le, (div_le_one hW).mpr (by linarith)⟩
    · exact ⟨div_nonneg hymin0 hH.le, (div_le_one hH).mpr (by linarith)⟩
    · exact ⟨div_nonneg (by linarith) hW.le, (div_le_one hW).mpr (by linarith)⟩
    · exact ⟨div_nonneg (by linarith) hH.le, (div_le_one hH).mpr (by linarith)⟩
  · intro xs ys hl hne hx hy pts hpts p hp
    rw [contourStaircase_interleave xs ys hl hne W H] at hpts
    obtain rfl : specStaircase (xs.map (· / W)) (ys.map (· / H)) = pts :=
      Except.ok.inj hpts
    obtain ⟨hp1, hp2⟩ := specStaircase_mem _ _ p hp
    obtain ⟨x, hxmem, hxeq⟩ := List.mem_map.mp hp1
    obtain ⟨y, hymem, hyeq⟩ := List.mem_map.mp hp2
    obtain ⟨hx0, hxW⟩ := hx x hxmem
    obtain ⟨hy0, hyH⟩ := hy y hymem
    rw [← hxeq, ← hyeq]
    exact ⟨⟨div_nonneg hx0 hW.le, (div_le_one hW).mpr hxW⟩,
           ⟨div_nonneg hy0 hH.le, (div_le_one hH).mpr hyH⟩⟩

/-- witness for C3's amended theorem, at an ordered box on a 10×10 image:
the normalized width coordinate lies in `[0,1]`. -/
theorem normalized_coordinates_witness :
    0 ≤ ((4 : ℚ) - 1) / 10 ∧ ((4 : ℚ) - 1) / 10 ≤ 1 :=
  (normalized_coordinates_unit_interval 10 10 (by decide) (by decide)).1
    1 2 4 6 (by decide) (by decide) (by decide) (by decide) (by decide) (by decide)
    _ rfl (((4 : ℚ) - 1) / 10)
    (List.mem_cons_of_mem _ (List.mem_cons_of_mem _ (List.mem_cons_self _ _)))

end Florence2
